import Mathlib

/-!
Verification development for pacssim/ServerlessSimulator.py.

The source is embedded shallowly:

* simulated times and durations live in an arbitrary linearly ordered
  additive commutative group `α` (the source computes with real-valued
  times but only ever adds, subtracts, compares and takes minima /
  maxima of them, so every theorem below holds uniformly for `ℚ`, `ℝ`
  or `ℤ`; concrete witnesses instantiate `α := ℤ`);
* the mutable counters of the simulator are integers (`ℤ`) for the
  decremented ones and naturals (`ℕ`) for the monotone totals, matching
  Python integers;
* the stochastic sampling processes (`SimProcess.generate_trace`) are
  embedded as explicit sample streams `ℕ → α` held in the configuration,
  with the current stream positions tracked in the simulator state; each
  call of `generate_trace` in the source corresponds to reading the stream
  at the current index and advancing the index;
* Python exceptions are embedded as `Except String`, carrying the message
  of the `raise` statement (or the kind of built-in error).
-/

deriving instance DecidableEq for Except

variable {α : Type} [LinearOrderedAddCommGroup α]

/-- States of a function instance; the source uses the strings
"COLD", "WARM", "IDLE", "TERM". -/
inductive InstState
  | COLD
  | WARM
  | IDLE
  | TERM
deriving DecidableEq, Repr

/-- Record of `FunctionInstance`. The two service processes stored on the
Python object are shared stateful samplers; here the drawn samples are
passed explicitly to the operations that consume them, so the record keeps
only the numeric and state fields. -/
structure FunctionInstance (α : Type) where
  creation_time : α
  expiration_threshold : α
  state : InstState
  is_busy : Bool
  is_cold : Bool
  next_departure : α
  next_termination : α
deriving DecidableEq

/-- Embeds `FunctionInstance.update_next_termination`:
`self.next_termination = self.next_departure + self.expiration_threshold`. -/
def FunctionInstance.update_next_termination (fi : FunctionInstance α) : FunctionInstance α :=
  { fi with next_termination := fi.next_departure + fi.expiration_threshold }

/-- Embeds `FunctionInstance.__init__(t, cold, warm, threshold)`:
state COLD, busy, cold; `next_departure = t + cold.generate_trace()` (the
drawn sample is the argument `coldSample`), then `update_next_termination`. -/
def FunctionInstance.mk_init (t coldSample threshold : α) : FunctionInstance α :=
  FunctionInstance.update_next_termination
    { creation_time := t
      expiration_threshold := threshold
      state := InstState.COLD
      is_busy := true
      is_cold := true
      next_departure := t + coldSample
      next_termination := 0 }

/-- Embeds `FunctionInstance.get_life_span`. -/
def FunctionInstance.get_life_span (fi : FunctionInstance α) : α :=
  fi.next_termination - fi.creation_time

/-- Embeds `FunctionInstance.arrival_transition(t)`; `w` is the sample drawn
by `self.warm_service_process.generate_trace()`. COLD or WARM raises
"instance is already busy!"; IDLE moves to WARM, sets busy, sets
`next_departure = t + w` and recomputes the termination; any other state
(TERM) falls through the if/elif chain and returns with no change. -/
def FunctionInstance.arrival_transition (fi : FunctionInstance α) (t w : α) :
    Except String (FunctionInstance α) :=
  match fi.state with
  | InstState.COLD => Except.error "instance is already busy!"
  | InstState.WARM => Except.error "instance is already busy!"
  | InstState.IDLE =>
      Except.ok (FunctionInstance.update_next_termination
        { fi with state := InstState.WARM, is_busy := true, next_departure := t + w })
  | InstState.TERM => Except.ok fi

/-- Embeds `FunctionInstance.is_idle`. -/
def FunctionInstance.is_idle (fi : FunctionInstance α) : Bool :=
  fi.state == InstState.IDLE

/-- Embeds `FunctionInstance.make_transition`; returns the new state
(as the source returns `self.state`) together with the updated instance.
COLD/WARM become IDLE; IDLE becomes TERM; TERM raises. -/
def FunctionInstance.make_transition (fi : FunctionInstance α) :
    Except String (InstState × FunctionInstance α) :=
  match fi.state with
  | InstState.COLD =>
      Except.ok (InstState.IDLE,
        { fi with state := InstState.IDLE, is_busy := false, is_cold := false })
  | InstState.WARM =>
      Except.ok (InstState.IDLE,
        { fi with state := InstState.IDLE, is_busy := false, is_cold := false })
  | InstState.IDLE =>
      Except.ok (InstState.TERM, { fi with state := InstState.TERM, is_busy := false })
  | InstState.TERM => Except.error "Cannot make transition on terminated instance!"

/-- Embeds `FunctionInstance.get_next_departure(t)`. -/
def FunctionInstance.get_next_departure (fi : FunctionInstance α) (t : α) : Except String α :=
  if t > fi.next_departure then Except.error "current time is after departure!"
  else Except.ok (fi.next_departure - t)

/-- Embeds `FunctionInstance.get_next_termination(t)`. -/
def FunctionInstance.get_next_termination (fi : FunctionInstance α) (t : α) : Except String α :=
  if t > fi.next_termination then Except.error "current time is after termination!"
  else Except.ok (fi.next_termination - t)

/-- Embeds `FunctionInstance.get_next_transition_time(t)`: termination time
remaining when IDLE, departure time remaining otherwise. -/
def FunctionInstance.get_next_transition_time (fi : FunctionInstance α) (t : α) :
    Except String α :=
  if fi.state = InstState.IDLE then fi.get_next_termination t
  else fi.get_next_departure t

/-- Configuration of a run of `ServerlessSimulator`: the three sampling
sources as explicit sample streams, the expiration threshold and the time
horizon. -/
structure SimConfig (α : Type) where
  arrival_samples : ℕ → α
  warm_samples : ℕ → α
  cold_samples : ℕ → α
  expiration_threshold : α
  max_time : α

/-- Mutable state of `ServerlessSimulator.generate_trace`: the locals `t`
and `next_arrival` of the loop, the fields set by `reset_trace`, and the
positions reached in each sample stream. -/
structure SimState (α : Type) where
  t : α
  next_arrival : α
  prev_servers : List (FunctionInstance α)
  total_req_count : ℕ
  total_cold_count : ℕ
  total_warm_count : ℕ
  servers : List (FunctionInstance α)
  server_count : ℤ
  running_count : ℤ
  idle_count : ℤ
  arrival_idx : ℕ
  warm_idx : ℕ
  cold_idx : ℕ
deriving DecidableEq

/-- Embeds `ServerlessSimulator.has_server`. -/
def SimState.has_server (st : SimState α) : Bool :=
  st.servers.length > 0

/-- Embeds `ServerlessSimulator.cold_start_arrival(t)`: bump request and
cold counters, bump server and running counters, append a brand new
instance created at `t` from a fresh cold-service sample. -/
def cold_start_arrival (cfg : SimConfig α) (t : α) (st : SimState α) : SimState α :=
  { st with
    total_req_count := st.total_req_count + 1
    total_cold_count := st.total_cold_count + 1
    server_count := st.server_count + 1
    running_count := st.running_count + 1
    servers := st.servers ++
      [FunctionInstance.mk_init t (cfg.cold_samples st.cold_idx) cfg.expiration_threshold]
    cold_idx := st.cold_idx + 1 }

/-- First index of the maximum of a list (semantics of `numpy.argmax`:
ties resolve to the earliest index; 0 for an empty list — the empty case
is guarded at the call site). -/
def argmaxIdx : List α → ℕ
  | [] => 0
  | x :: xs =>
      let j := argmaxIdx xs
      match xs[j]? with
      | none => 0
      | some v => if x < v then j + 1 else 0

/-- First index of the minimum of a list (semantics of `numpy.argmin`). -/
def argminIdx : List α → ℕ
  | [] => 0
  | x :: xs =>
      let j := argminIdx xs
      match xs[j]? with
      | none => 0
      | some v => if v < x then j + 1 else 0

/-- Minimum value of a list (semantics of `numpy.min` on a nonempty
array; 0 for an empty list — unreachable at the call site). -/
def listMin : List α → α
  | [] => 0
  | [x] => x
  | x :: y :: ys => min x (listMin (y :: ys))

/-- Applies a fallible update to the `n`-th element satisfying `is_idle` of
a list of instances, leaving every other element in place. This is the
effect of `idle_instances[idx].arrival_transition(t)` in
`schedule_warm_instance`: the filtered list holds references into
`self.servers`, so mutating its `idx`-th element mutates the corresponding
element of `self.servers`. An out-of-range index is an IndexError. -/
def updateIdleAtE (f : FunctionInstance α → Except String (FunctionInstance α)) :
    List (FunctionInstance α) → ℕ → Except String (List (FunctionInstance α))
  | [], _ => Except.error "list index out of range"
  | s :: ss, 0 =>
      if s.is_idle then
        match f s with
        | Except.ok s' => Except.ok (s' :: ss)
        | Except.error e => Except.error e
      else
        match updateIdleAtE f ss 0 with
        | Except.ok ss' => Except.ok (s :: ss')
        | Except.error e => Except.error e
  | s :: ss, n + 1 =>
      if s.is_idle then
        match updateIdleAtE f ss n with
        | Except.ok ss' => Except.ok (s :: ss')
        | Except.error e => Except.error e
      else
        match updateIdleAtE f ss (n + 1) with
        | Except.ok ss' => Except.ok (s :: ss')
        | Except.error e => Except.error e

/-- Embeds `ServerlessSimulator.schedule_warm_instance(t)`: bump request
and warm counters, filter the idle instances, take `numpy.argmax` of their
creation times (raises on an empty array), and run `arrival_transition`
on the selected instance with a fresh warm-service sample. -/
def schedule_warm_instance (cfg : SimConfig α) (t : α) (st : SimState α) :
    Except String (SimState α) :=
  let st1 := { st with
    total_req_count := st.total_req_count + 1
    total_warm_count := st.total_warm_count + 1 }
  let idle_instances := st1.servers.filter (fun s => s.is_idle)
  let creation_times := idle_instances.map (fun s => s.creation_time)
  if creation_times.isEmpty then
    Except.error "attempt to get argmax of an empty sequence"
  else
    let idx := argmaxIdx creation_times
    match updateIdleAtE
        (fun s => s.arrival_transition t (cfg.warm_samples st1.warm_idx))
        st1.servers idx with
    | Except.ok servers' =>
        Except.ok { st1 with servers := servers', warm_idx := st1.warm_idx + 1 }
    | Except.error e => Except.error e

/-- Embeds `ServerlessSimulator.warm_start_arrival(t)`: move one unit from
idle to running, then schedule the arrival on a warm instance. -/
def warm_start_arrival (cfg : SimConfig α) (t : α) (st : SimState α) :
    Except String (SimState α) :=
  schedule_warm_instance cfg t
    { st with idle_count := st.idle_count - 1, running_count := st.running_count + 1 }

/-- Evaluates `[s.get_next_transition_time(t) for s in servers]`; the first
exception raised by a comprehension element propagates. -/
def nextTransTimes (t : α) : List (FunctionInstance α) → Except String (List α)
  | [] => Except.ok []
  | s :: ss =>
      match s.get_next_transition_time t with
      | Except.error e => Except.error e
      | Except.ok v =>
          match nextTransTimes t ss with
          | Except.error e => Except.error e
          | Except.ok vs => Except.ok (v :: vs)

/-- One iteration of the `while t < self.max_time` body of
`ServerlessSimulator.generate_trace` (the loop guard lives in `run`).
No live server: the next event is the arrival, served cold. Otherwise the
arrival is dispatched when `next_arrival - t` is strictly below the least
pending instance-transition time (warm when `idle_count > 0`, else cold);
otherwise the instance at the `argmin` index makes its transition, a TERM
result archives and deletes it, an IDLE result moves it from running to
idle, and any other result raises. -/
def step (cfg : SimConfig α) (st : SimState α) : Except String (SimState α) :=
  if st.has_server = false then
    let t := st.next_arrival
    let na := t + cfg.arrival_samples st.arrival_idx
    Except.ok (cold_start_arrival cfg t
      { st with t := t, next_arrival := na, arrival_idx := st.arrival_idx + 1 })
  else
    match nextTransTimes st.t st.servers with
    | Except.error e => Except.error e
    | Except.ok ts =>
        if st.next_arrival - st.t < listMin ts then
          let t := st.next_arrival
          let na := t + cfg.arrival_samples st.arrival_idx
          let st1 := { st with t := t, next_arrival := na, arrival_idx := st.arrival_idx + 1 }
          if st1.idle_count > 0 then warm_start_arrival cfg t st1
          else Except.ok (cold_start_arrival cfg t st1)
        else
          let idx := argminIdx ts
          match st.servers[idx]?, ts[idx]? with
          | some s, some dt =>
              let t' := st.t + dt
              match s.make_transition with
              | Except.error e => Except.error e
              | Except.ok (new_state, s') =>
                  match new_state with
                  | InstState.TERM =>
                      Except.ok { st with
                        t := t'
                        prev_servers := st.prev_servers ++ [s']
                        idle_count := st.idle_count - 1
                        server_count := st.server_count - 1
                        servers := (st.servers.set idx s').eraseIdx idx }
                  | InstState.IDLE =>
                      Except.ok { st with
                        t := t'
                        running_count := st.running_count - 1
                        idle_count := st.idle_count + 1
                        servers := st.servers.set idx s' }
                  | _ => Except.error "Unknown transition in states"
          | _, _ => Except.error "list index out of range"

/-- State right after the prologue of `generate_trace`: `reset_trace`,
`t = 0`, `next_arrival = t + self.req()` (the first arrival sample). -/
def init_state (cfg : SimConfig α) : SimState α :=
  { t := 0
    next_arrival := 0 + cfg.arrival_samples 0
    prev_servers := []
    total_req_count := 0
    total_cold_count := 0
    total_warm_count := 0
    servers := []
    server_count := 0
    running_count := 0
    idle_count := 0
    arrival_idx := 1
    warm_idx := 0
    cold_idx := 0 }

/-- Fuelled unfolding of the `while t < self.max_time` loop of
`generate_trace`: at most `n` iterations of `step`, stopping early when
the guard fails. -/
def run (cfg : SimConfig α) : ℕ → SimState α → Except String (SimState α)
  | 0, st => Except.ok st
  | n + 1, st =>
      if st.t < cfg.max_time then
        match step cfg st with
        | Except.error e => Except.error e
        | Except.ok st' => run cfg n st'
      else Except.ok st

/-- Modelled from the spec: the `pacssim.SimProcess` module is not under
src/; per the spec a sampling source exposes a single operation
`generate_trace() -> non-negative duration`, so a source is embedded as a
stream of the durations it will produce. Only its existence matters for
the construction-time claims. -/
structure SimProcess (α : Type) where
  samples : ℕ → α

/-- Modelled from the spec: `ExpSimProcess(rate)` builds an exponential
sampling source from a rate parameter; its distribution is opaque here
(the stream contents play no role in construction-time validation). -/
def ExpSimProcess (rate : α) : SimProcess α :=
  SimProcess.mk (fun _ => rate)

/-- Keyword arguments recognised by `ServerlessSimulator.__init__`
(`'arrival_rate' in kwargs` corresponds to the option being `some`). -/
structure SimKwargs (α : Type) where
  arrival_rate : Option α
  warm_service_rate : Option α
  cold_service_rate : Option α

/-- Result of a successful `ServerlessSimulator.__init__`: the three
resolved processes plus the scalar configuration. -/
structure SimulatorInit (α : Type) where
  arrival_process : SimProcess α
  warm_service_process : SimProcess α
  cold_service_process : SimProcess α
  expiration_threshold : α
  max_time : α

/-- Tail of `ServerlessSimulator.__init__` after the rate comparison: the
warm service process (a `warm_service_rate` keyword overrides the
positional argument, a missing result raises) and then the cold service
process, same pattern. -/
def simInitServices (ap : SimProcess α)
    (warm_service_process cold_service_process : Option (SimProcess α))
    (expiration_threshold max_time : α) (kw : SimKwargs α) :
    Except String (SimulatorInit α) :=
  let wp := match kw.warm_service_rate with
    | some r => some (ExpSimProcess r)
    | none => warm_service_process
  match wp with
  | none => Except.error "Warm Service process not defined!"
  | some wp =>
      let cp := match kw.cold_service_rate with
        | some r => some (ExpSimProcess r)
        | none => cold_service_process
      match cp with
      | none => Except.error "Cold Service process not defined!"
      | some cp =>
          Except.ok
            { arrival_process := ap
              warm_service_process := wp
              cold_service_process := cp
              expiration_threshold := expiration_threshold
              max_time := max_time }

/-- Embeds `ServerlessSimulator.__init__`, in source order: the arrival
process (an `arrival_rate` keyword overrides the positional argument, and
a missing result raises), then the warm/cold rate comparison when both
rate keywords are present, then the warm and cold service processes with
the same override-then-check pattern. -/
def simInit (arrival_process warm_service_process cold_service_process : Option (SimProcess α))
    (expiration_threshold max_time : α) (kw : SimKwargs α) :
    Except String (SimulatorInit α) :=
  let ap := match kw.arrival_rate with
    | some r => some (ExpSimProcess r)
    | none => arrival_process
  match ap with
  | none => Except.error "Arrival process not defined!"
  | some ap =>
      match kw.warm_service_rate, kw.cold_service_rate with
      | some w, some c =>
          if w < c then
            Except.error "Warm service rate cannot be smaller than cold service rate!"
          else
            simInitServices ap warm_service_process cold_service_process
              expiration_threshold max_time kw
      | _, _ =>
          simInitServices ap warm_service_process cold_service_process
            expiration_threshold max_time kw

/-- The timer invariant of an instance: the termination alarm is the
departure alarm plus the expiration threshold. -/
abbrev TermInv (fi : FunctionInstance α) : Prop :=
  fi.next_termination = fi.next_departure + fi.expiration_threshold

/-- Concrete sampling source used by witnesses. -/
def procW : SimProcess ℤ :=
  SimProcess.mk (fun _ => 1)

/-- Concrete idle instance used by witnesses: created at 0, threshold 10,
departed at 5, expiring at 15. -/
def fiIdle : FunctionInstance ℤ :=
  { creation_time := 0
    expiration_threshold := 10
    state := InstState.IDLE
    is_busy := false
    is_cold := false
    next_departure := 5
    next_termination := 15 }

/-- Concrete busy (COLD) instance used by witnesses. -/
def fiCold : FunctionInstance ℤ :=
  { fiIdle with state := InstState.COLD, is_busy := true, is_cold := true }

/-- Concrete terminated instance used by witnesses. -/
def fiTerm : FunctionInstance ℤ :=
  { fiIdle with state := InstState.TERM }

/-- The instance `fiIdle` after accepting an arrival at time 1 whose
warm-service sample is 4. -/
def fiIdleWarmed : FunctionInstance ℤ :=
  { fiIdle with
    state := InstState.WARM
    is_busy := true
    next_departure := 5
    next_termination := 15 }

/-- Flag observing whether `step` ended in the "Unknown transition in
states" branch of the event loop. -/
def stepUnknownFlag (cfg : SimConfig α) (st : SimState α) : Bool :=
  match step cfg st with
  | Except.error e => e == "Unknown transition in states"
  | Except.ok _ => false

/-- Concrete configuration used by witnesses: unit interarrival and warm
samples, cold samples of 5, threshold 10, horizon 100. -/
def cfgW : SimConfig ℤ :=
  { arrival_samples := fun _ => 1
    warm_samples := fun _ => 1
    cold_samples := fun _ => 5
    expiration_threshold := 10
    max_time := 100 }

/-- Concrete simulator state used by witnesses: one COLD server departing
at 5, next arrival at 1, clock 0. -/
def stOneCold : SimState ℤ :=
  { t := 0
    next_arrival := 1
    prev_servers := []
    total_req_count := 1
    total_cold_count := 1
    total_warm_count := 0
    servers := [fiCold]
    server_count := 1
    running_count := 1
    idle_count := 0
    arrival_idx := 1
    warm_idx := 0
    cold_idx := 1 }

/-- Result of one step from `stOneCold` (an arrival served cold). -/
def stOneColdStepped : SimState ℤ :=
  match step cfgW stOneCold with
  | Except.ok s => s
  | Except.error _ => stOneCold

/-- Idle instance created at time 3, used by the warm-selection witness. -/
def fiIdle3 : FunctionInstance ℤ :=
  { fiIdle with creation_time := 3 }

/-- Idle instance created at time 7, used by the warm-selection witness. -/
def fiIdle7 : FunctionInstance ℤ :=
  { fiIdle with creation_time := 7 }

/-- Concrete simulator state with two idle servers created at 3 and 7. -/
def stTwoIdle : SimState ℤ :=
  { t := 10
    next_arrival := 12
    prev_servers := []
    total_req_count := 2
    total_cold_count := 2
    total_warm_count := 0
    servers := [fiIdle3, fiIdle7]
    server_count := 2
    running_count := 0
    idle_count := 2
    arrival_idx := 2
    warm_idx := 0
    cold_idx := 2 }

/-- The state reached by three loop iterations of `generate_trace` under
`cfgW`, used by the counter-invariant witness. -/
def stRun3 : SimState ℤ :=
  match run cfgW 3 (init_state cfgW) with
  | Except.ok s => s
  | Except.error _ => init_state cfgW

/-- C3: the equation `next_termination = next_departure +
expiration_threshold` holds after construction of a `FunctionInstance` and
is preserved by every successful `arrival_transition` and
`make_transition`. -/
theorem termination_timer_invariant (t c th w : α) (fi : FunctionInstance α) :
    TermInv (FunctionInstance.mk_init t c th)
    ∧ (TermInv fi → ∀ fi', fi.arrival_transition t w = Except.ok fi' → TermInv fi')
    ∧ (TermInv fi → ∀ p, fi.make_transition = Except.ok p → TermInv p.2) := by
  refine ⟨rfl, ?_, ?_⟩
  · intro h fi' hok
    cases hst : fi.state <;>
      simp [FunctionInstance.arrival_transition, hst,
        FunctionInstance.update_next_termination] at hok
    · subst hok; simp [FunctionInstance.update_next_termination, TermInv]
    · subst hok; exact h
  · intro h p hok
    cases hst : fi.state <;>
      simp [FunctionInstance.make_transition, hst] at hok
    · subst hok; simpa [TermInv] using h
    · subst hok; simpa [TermInv] using h
    · subst hok; simpa [TermInv] using h

/-- Witness for C3 at concrete inputs: the invariant after construction at
t = 1 with cold sample 2 and threshold 3, and after the arrival transition
taking `fiIdle` to `fiIdleWarmed`. -/
theorem termination_timer_invariant_witness :
    TermInv (FunctionInstance.mk_init (1 : ℤ) 2 3) ∧ TermInv fiIdleWarmed :=
  ⟨(termination_timer_invariant (1 : ℤ) 2 3 4 fiIdle).1,
   (termination_timer_invariant (1 : ℤ) 2 3 4 fiIdle).2.1 (by decide) fiIdleWarmed (by decide)⟩

/-- C6: `arrival_transition(t)` errors when the state is COLD or WARM; when
the state is IDLE it succeeds, the state becomes WARM, `next_departure`
becomes `t` plus the fresh warm-service sample, and `next_termination` is
recomputed from the new departure. -/
theorem arrival_transition_contract (t w : α) (fi : FunctionInstance α) :
    ((fi.state = InstState.COLD ∨ fi.state = InstState.WARM) →
      fi.arrival_transition t w = Except.error "instance is already busy!")
    ∧ (fi.state = InstState.IDLE →
      fi.arrival_transition t w = Except.ok
        { fi with
          state := InstState.WARM
          is_busy := true
          next_departure := t + w
          next_termination := t + w + fi.expiration_threshold }) := by
  constructor
  · rintro (h | h) <;> simp [FunctionInstance.arrival_transition, h]
  · intro h
    simp [FunctionInstance.arrival_transition, h, FunctionInstance.update_next_termination]

/-- Witness for C6: the contract evaluated on the concrete busy instance
`fiCold` and the concrete idle instance `fiIdle` at t = 1, sample 4. -/
theorem arrival_transition_contract_witness :
    fiCold.arrival_transition 1 4 = Except.error "instance is already busy!"
    ∧ fiIdle.arrival_transition 1 4 = Except.ok
        { fiIdle with
          state := InstState.WARM
          is_busy := true
          next_departure := 1 + 4
          next_termination := 1 + 4 + fiIdle.expiration_threshold } :=
  ⟨(arrival_transition_contract 1 4 fiCold).1 (Or.inl rfl),
   (arrival_transition_contract 1 4 fiIdle).2 rfl⟩

/-- C9: `arrival_transition(t)` on a TERM instance falls through the
if/elif chain of the source: it returns normally and changes no field. -/
theorem arrival_transition_term_noop (t w : α) (fi : FunctionInstance α)
    (h : fi.state = InstState.TERM) :
    fi.arrival_transition t w = Except.ok fi := by
  simp [FunctionInstance.arrival_transition, h]

/-- Witness for C9 at the concrete terminated instance `fiTerm`. -/
theorem arrival_transition_term_noop_witness :
    fiTerm.arrival_transition 1 4 = Except.ok fiTerm :=
  arrival_transition_term_noop 1 4 fiTerm rfl

/-- C8: if both `warm_service_rate` and `cold_service_rate` keywords are
supplied and the warm rate is smaller than the cold rate, construction
fails before a simulator value is produced. -/
theorem warm_cold_rate_validation (ap wp cp : Option (SimProcess α)) (et mt w c : α)
    (kw : SimKwargs α) (hw : kw.warm_service_rate = some w)
    (hc : kw.cold_service_rate = some c) (hlt : w < c) :
    (simInit ap wp cp et mt kw).isOk = false := by
  cases har : kw.arrival_rate <;> cases ap <;>
    simp [simInit, har, hw, hc, hlt, Except.isOk, Except.toBool]

/-- Witness for C8, the scenario of the claim: `warm_service_rate = 1`,
`cold_service_rate = 2` (with an arrival rate supplied so that validation
is what decides), and construction fails. -/
theorem warm_cold_rate_validation_witness :
    (simInit (some procW) (some procW) (some procW) (600 : ℤ) 86400
      (SimKwargs.mk (some 1) (some 1) (some 2))).isOk = false :=
  warm_cold_rate_validation (some procW) (some procW) (some procW) 600 86400 1 2
    (SimKwargs.mk (some 1) (some 1) (some 2)) rfl rfl (by decide)

/-- C7 counterexample: the claim says construction succeeds only when
exactly one of `arrival_process` and `arrival_rate` resolves to a concrete
arrival source and fails otherwise; but when both are supplied (here a
ready-made process and `arrival_rate = 1`, so both resolve) construction
succeeds — the rate keyword silently overrides the process argument. -/
theorem simInit_both_arrival_counterexample :
    (simInit (some procW) (some procW) (some procW) (600 : ℤ) 86400
      (SimKwargs.mk (some 1) none none)).isOk = true := by
  decide

/-- C7 amended: construction fails when neither `arrival_process` nor
`arrival_rate` is supplied, and succeeds as soon as at least one of them
is supplied (with `arrival_rate` taking precedence when both are), the
service configuration being otherwise valid. -/
theorem simInit_arrival_resolution (ap wp cp : Option (SimProcess α)) (et mt w c : α)
    (kw : SimKwargs α) :
    ((kw.arrival_rate = none ∧ ap = none) → (simInit ap wp cp et mt kw).isOk = false)
    ∧ (kw.warm_service_rate = some w → kw.cold_service_rate = some c → c ≤ w →
       (kw.arrival_rate ≠ none ∨ ap ≠ none) →
       (simInit ap wp cp et mt kw).isOk = true) := by
  constructor
  · rintro ⟨h1, h2⟩
    simp [simInit, h1, h2, Except.isOk, Except.toBool]
  · intro hw hc hcw hone
    have hnlt : ¬w < c := not_lt.mpr hcw
    cases har : kw.arrival_rate with
    | some r => simp [simInit, har, hw, hc, hnlt, simInitServices, Except.isOk, Except.toBool]
    | none =>
        cases hap : ap with
        | none =>
            rcases hone with h | h
            · exact absurd har h
            · exact absurd hap h
        | some p => simp [simInit, har, hw, hc, hnlt, simInitServices, Except.isOk, Except.toBool]

/-- Witness for the amended C7: construction with no arrival information
fails; construction with only `arrival_rate = 1` (and valid service
rates) succeeds. -/
theorem simInit_arrival_resolution_witness :
    ((simInit (none : Option (SimProcess ℤ)) none none 600 86400
        (SimKwargs.mk none (some 2) (some 1))).isOk = false)
    ∧ ((simInit (none : Option (SimProcess ℤ)) none none 600 86400
        (SimKwargs.mk (some 1) (some 2) (some 1))).isOk = true) :=
  ⟨(simInit_arrival_resolution none none none 600 86400 2 1
      (SimKwargs.mk none (some 2) (some 1))).1 ⟨rfl, rfl⟩,
   (simInit_arrival_resolution none none none 600 86400 2 1
      (SimKwargs.mk (some 1) (some 2) (some 1))).2 rfl rfl (by decide)
      (Or.inl (by decide))⟩

/-- A successful indexed lookup yields a member of the list. -/
theorem getElem?_mem {β : Type} {l : List β} {i : ℕ} {a : β} (h : l[i]? = some a) : a ∈ l :=
  List.get?_mem (by rw [List.get?_eq_getElem?]; exact h)

/-- The `argmaxIdx` of a nonempty list points at a value that bounds every
element from above (`numpy.argmax` returns an index of the maximum). -/
theorem argmaxIdx_spec : ∀ l : List α, l ≠ [] →
    ∃ v, l[argmaxIdx l]? = some v ∧ ∀ x ∈ l, x ≤ v := by
  intro l
  induction l with
  | nil => intro h; exact absurd rfl h
  | cons x xs ih =>
      intro _
      by_cases hxs : xs = []
      · subst hxs
        refine ⟨x, by simp [argmaxIdx], ?_⟩
        intro y hy
        simp at hy
        rw [hy]
      · obtain ⟨v, hget, hmax⟩ := ih hxs
        have hred : argmaxIdx (x :: xs) = if x < v then argmaxIdx xs + 1 else 0 := by
          simp [argmaxIdx, hget]
        by_cases hlt : x < v
        · refine ⟨v, ?_, ?_⟩
          · rw [hred, if_pos hlt]
            simpa using hget
          · intro y hy
            rcases List.mem_cons.mp hy with h | h
            · rw [h]; exact le_of_lt hlt
            · exact hmax y h
        · refine ⟨x, ?_, ?_⟩
          · rw [hred, if_neg hlt]
            simp
          · intro y hy
            rcases List.mem_cons.mp hy with h | h
            · rw [h]
            · exact le_trans (hmax y h) (not_lt.mp hlt)

/-- The `argminIdx` of a nonempty list points at a value that bounds every
element from below (`numpy.argmin` returns an index of the minimum). -/
theorem argminIdx_spec : ∀ l : List α, l ≠ [] →
    ∃ v, l[argminIdx l]? = some v ∧ ∀ x ∈ l, v ≤ x := by
  intro l
  induction l with
  | nil => intro h; exact absurd rfl h
  | cons x xs ih =>
      intro _
      by_cases hxs : xs = []
      · subst hxs
        refine ⟨x, by simp [argminIdx], ?_⟩
        intro y hy
        simp at hy
        rw [hy]
      · obtain ⟨v, hget, hmin⟩ := ih hxs
        have hred : argminIdx (x :: xs) = if v < x then argminIdx xs + 1 else 0 := by
          simp [argminIdx, hget]
        by_cases hlt : v < x
        · refine ⟨v, ?_, ?_⟩
          · rw [hred, if_pos hlt]
            simpa using hget
          · intro y hy
            rcases List.mem_cons.mp hy with h | h
            · rw [h]; exact le_of_lt hlt
            · exact hmin y h
        · refine ⟨x, ?_, ?_⟩
          · rw [hred, if_neg hlt]
            simp
          · intro y hy
            rcases List.mem_cons.mp hy with h | h
            · rw [h]
            · exact le_trans (not_lt.mp hlt) (hmin y h)

/-- `listMin` bounds every element of the list from below. -/
theorem listMin_le : ∀ l : List α, ∀ x ∈ l, listMin l ≤ x := by
  intro l
  induction l with
  | nil => intro x hx; simp at hx
  | cons a l ih =>
      intro x hx
      cases l with
      | nil =>
          simp at hx
          rw [hx]
          simp [listMin]
      | cons b m =>
          rcases List.mem_cons.mp hx with h | h
          · rw [h]
            simp [listMin]
          · calc listMin (a :: b :: m) ≤ listMin (b :: m) := by simp [listMin]
              _ ≤ x := ih x h

/-- `listMin` of a nonempty list is one of its elements. -/
theorem listMin_mem : ∀ l : List α, l ≠ [] → listMin l ∈ l := by
  intro l
  induction l with
  | nil => intro h; exact absurd rfl h
  | cons a l ih =>
      intro _
      cases l with
      | nil => simp [listMin]
      | cons b m =>
          rcases le_total a (listMin (b :: m)) with h | h
          · have he : listMin (a :: b :: m) = a := by simp [listMin, h]
            rw [he]; exact List.mem_cons_self a _
          · have he : listMin (a :: b :: m) = listMin (b :: m) := by simp [listMin, h]
            rw [he]
            exact List.mem_cons_of_mem a (ih (by simp))

/-- The element found by `argminIdx` is exactly `listMin`: `numpy.argmin`
points at the value `numpy.min` returns. -/
theorem argminIdx_get_listMin (l : List α) (h : l ≠ []) :
    l[argminIdx l]? = some (listMin l) := by
  obtain ⟨v, hget, hmin⟩ := argminIdx_spec l h
  have hvmem : v ∈ l := getElem?_mem hget
  have h1 : listMin l ≤ v := listMin_le l v hvmem
  have h2 : v ≤ listMin l := hmin _ (listMin_mem l h)
  rw [hget, le_antisymm h2 h1]

/-- An idle instance accepts an arrival: the state becomes WARM and both
timers are recomputed from the dispatch time. -/
theorem arrival_transition_of_idle (t w : α) (fi : FunctionInstance α)
    (h : fi.is_idle = true) :
    fi.arrival_transition t w = Except.ok
      { fi with
        state := InstState.WARM
        is_busy := true
        next_departure := t + w
        next_termination := t + w + fi.expiration_threshold } := by
  have hst : fi.state = InstState.IDLE := by
    simpa [FunctionInstance.is_idle] using h
  simp [FunctionInstance.arrival_transition, hst, FunctionInstance.update_next_termination]

omit [LinearOrderedAddCommGroup α] in
/-- A successful `make_transition` only ever reports IDLE or TERM. -/
theorem make_transition_ok_state (fi : FunctionInstance α)
    (p : InstState × FunctionInstance α) (h : fi.make_transition = Except.ok p) :
    p.1 = InstState.IDLE ∨ p.1 = InstState.TERM := by
  cases hst : fi.state <;> simp [FunctionInstance.make_transition, hst] at h
  · rw [← h]; exact Or.inl rfl
  · rw [← h]; exact Or.inl rfl
  · rw [← h]; exact Or.inr rfl

/-- A successful `get_next_transition_time` is a nonnegative remaining
duration. -/
theorem get_next_transition_time_nonneg (fi : FunctionInstance α) (t v : α)
    (h : fi.get_next_transition_time t = Except.ok v) : 0 ≤ v := by
  unfold FunctionInstance.get_next_transition_time at h
  by_cases hs : fi.state = InstState.IDLE
  · rw [if_pos hs] at h
    unfold FunctionInstance.get_next_termination at h
    by_cases ht : t > fi.next_termination
    · rw [if_pos ht] at h; exact absurd h (by simp)
    · rw [if_neg ht] at h
      have hv : fi.next_termination - t = v := by
        simpa using h
      rw [← hv]
      exact sub_nonneg.mpr (not_lt.mp ht)
  · rw [if_neg hs] at h
    unfold FunctionInstance.get_next_departure at h
    by_cases ht : t > fi.next_departure
    · rw [if_pos ht] at h; exact absurd h (by simp)
    · rw [if_neg ht] at h
      have hv : fi.next_departure - t = v := by
        simpa using h
      rw [← hv]
      exact sub_nonneg.mpr (not_lt.mp ht)

/-- A successful transition-time list has the same length as the server
list it was computed from. -/
theorem nextTransTimes_length (t : α) :
    ∀ (ss : List (FunctionInstance α)) (ts : List α),
      nextTransTimes t ss = Except.ok ts → ts.length = ss.length := by
  intro ss
  induction ss with
  | nil =>
      intro ts h
      simp [nextTransTimes] at h
      simp [h]
  | cons s ss ih =>
      intro ts h
      unfold nextTransTimes at h
      cases h1 : s.get_next_transition_time t with
      | error e => rw [h1] at h; exact absurd h (by simp)
      | ok v =>
          rw [h1] at h
          cases h2 : nextTransTimes t ss with
          | error e => rw [h2] at h; exact absurd h (by simp)
          | ok vs =>
              rw [h2] at h
              have hts : v :: vs = ts := by simpa using h
              rw [← hts]
              simp [ih vs h2]

/-- Every entry of a successful transition-time list is nonnegative. -/
theorem nextTransTimes_nonneg (t : α) :
    ∀ (ss : List (FunctionInstance α)) (ts : List α),
      nextTransTimes t ss = Except.ok ts → ∀ v ∈ ts, 0 ≤ v := by
  intro ss
  induction ss with
  | nil =>
      intro ts h v hv
      simp [nextTransTimes] at h
      rw [h] at hv
      simp at hv
  | cons s ss ih =>
      intro ts h v hv
      unfold nextTransTimes at h
      cases h1 : s.get_next_transition_time t with
      | error e => rw [h1] at h; exact absurd h (by simp)
      | ok v0 =>
          rw [h1] at h
          cases h2 : nextTransTimes t ss with
          | error e => rw [h2] at h; exact absurd h (by simp)
          | ok vs =>
              rw [h2] at h
              have hts : v0 :: vs = ts := by simpa using h
              rw [← hts] at hv
              rcases List.mem_cons.mp hv with hc | hc
              · rw [hc]; exact get_next_transition_time_nonneg s t v0 h1
              · exact ih vs h2 v hc

omit [LinearOrderedAddCommGroup α] in
/-- `updateIdleAtE` never changes the length of the list. -/
theorem updateIdleAtE_length (f : FunctionInstance α → Except String (FunctionInstance α)) :
    ∀ (l : List (FunctionInstance α)) (n : ℕ) (l' : List (FunctionInstance α)),
      updateIdleAtE f l n = Except.ok l' → l'.length = l.length := by
  intro l
  induction l with
  | nil => intro n l' h; exact absurd h (by simp [updateIdleAtE])
  | cons s ss ih =>
      intro n l' h
      cases n with
      | zero =>
          unfold updateIdleAtE at h
          by_cases hid : s.is_idle
          · rw [if_pos hid] at h
            cases hf : f s with
            | error e => rw [hf] at h; exact absurd h (by simp)
            | ok s' =>
                rw [hf] at h
                have hl : s' :: ss = l' := by simpa using h
                rw [← hl]
                simp
          · rw [if_neg hid] at h
            cases hr : updateIdleAtE f ss 0 with
            | error e => rw [hr] at h; exact absurd h (by simp)
            | ok ss' =>
                rw [hr] at h
                have hl : s :: ss' = l' := by simpa using h
                rw [← hl]
                simp [ih 0 ss' hr]
      | succ n =>
          unfold updateIdleAtE at h
          by_cases hid : s.is_idle
          · rw [if_pos hid] at h
            cases hr : updateIdleAtE f ss n with
            | error e => rw [hr] at h; exact absurd h (by simp)
            | ok ss' =>
                rw [hr] at h
                have hl : s :: ss' = l' := by simpa using h
                rw [← hl]
                simp [ih n ss' hr]
          · rw [if_neg hid] at h
            cases hr : updateIdleAtE f ss (n + 1) with
            | error e => rw [hr] at h; exact absurd h (by simp)
            | ok ss' =>
                rw [hr] at h
                have hl : s :: ss' = l' := by simpa using h
                rw [← hl]
                simp [ih (n + 1) ss' hr]

omit [LinearOrderedAddCommGroup α] in
/-- When the `n`-th idle element of `l` is `s` and the update `f s`
succeeds, `updateIdleAtE` succeeds and replaces exactly that occurrence:
there is a position `i` of `l` holding `s` whose update yields `l.set i`. -/
theorem updateIdleAtE_filter_get
    (f : FunctionInstance α → Except String (FunctionInstance α)) :
    ∀ (l : List (FunctionInstance α)) (n : ℕ) (s fs : FunctionInstance α),
      (l.filter (fun x => x.is_idle))[n]? = some s → f s = Except.ok fs →
      ∃ i, l[i]? = some s ∧ updateIdleAtE f l n = Except.ok (l.set i fs) := by
  intro l
  induction l with
  | nil => intro n s fs hg _; simp at hg
  | cons s0 ss ih =>
      intro n s fs hg hf
      by_cases hid : s0.is_idle
      · rw [List.filter_cons_of_pos hid] at hg
        cases n with
        | zero =>
            have hs : s0 = s := by simpa using hg
            refine ⟨0, by simp [hs], ?_⟩
            unfold updateIdleAtE
            rw [if_pos hid, hs, hf]
            simp
        | succ n =>
            have hg' : (ss.filter (fun x => x.is_idle))[n]? = some s := by
              simpa using hg
            obtain ⟨i, hgi, hupd⟩ := ih n s fs hg' hf
            refine ⟨i + 1, by simpa using hgi, ?_⟩
            unfold updateIdleAtE
            rw [if_pos hid, hupd]
            simp
      · rw [List.filter_cons_of_neg hid] at hg
        obtain ⟨i, hgi, hupd⟩ := ih n s fs hg hf
        refine ⟨i + 1, by simpa using hgi, ?_⟩
        cases n with
        | zero =>
            unfold updateIdleAtE
            rw [if_neg hid, hupd]
            simp
        | succ n =>
            unfold updateIdleAtE
            rw [if_neg hid, hupd]
            simp

omit [LinearOrderedAddCommGroup α] in
/-- An `updateIdleAtE` failure is either the out-of-range IndexError or a
failure of the update function itself on some element. -/
theorem updateIdleAtE_error_shape
    (f : FunctionInstance α → Except String (FunctionInstance α)) :
    ∀ (l : List (FunctionInstance α)) (n : ℕ) (e : String),
      updateIdleAtE f l n = Except.error e →
      e = "list index out of range" ∨ ∃ s, f s = Except.error e := by
  intro l
  induction l with
  | nil =>
      intro n e h
      simp [updateIdleAtE] at h
      exact Or.inl h.symm
  | cons s ss ih =>
      intro n e h
      cases n with
      | zero =>
          unfold updateIdleAtE at h
          by_cases hid : s.is_idle
          · rw [if_pos hid] at h
            cases hf : f s with
            | error e0 =>
                rw [hf] at h
                have he : e0 = e := by simpa using h
                exact Or.inr ⟨s, by rw [hf, he]⟩
            | ok s' => rw [hf] at h; exact absurd h (by simp)
          · rw [if_neg hid] at h
            cases hr : updateIdleAtE f ss 0 with
            | error e0 =>
                rw [hr] at h
                have he : e0 = e := by simpa using h
                rw [← he]
                exact ih 0 e0 hr
            | ok ss' => rw [hr] at h; exact absurd h (by simp)
      | succ n =>
          unfold updateIdleAtE at h
          by_cases hid : s.is_idle
          · rw [if_pos hid] at h
            cases hr : updateIdleAtE f ss n with
            | error e0 =>
                rw [hr] at h
                have he : e0 = e := by simpa using h
                rw [← he]
                exact ih n e0 hr
            | ok ss' => rw [hr] at h; exact absurd h (by simp)
          · rw [if_neg hid] at h
            cases hr : updateIdleAtE f ss (n + 1) with
            | error e0 =>
                rw [hr] at h
                have he : e0 = e := by simpa using h
                rw [← he]
                exact ih (n + 1) e0 hr
            | ok ss' => rw [hr] at h; exact absurd h (by simp)

/-- The only error `arrival_transition` can raise is the busy-instance
one. -/
theorem arrival_transition_error_shape (t w : α) (fi : FunctionInstance α) (e : String)
    (h : fi.arrival_transition t w = Except.error e) :
    e = "instance is already busy!" := by
  cases hst : fi.state <;> simp [FunctionInstance.arrival_transition, hst] at h <;>
    exact h.symm

/-- Shape of a successful `schedule_warm_instance`: the request and warm
totals are bumped, the warm stream advances, the server list is replaced
by one of equal length, and nothing else changes. -/
theorem schedule_ok_shape (cfg : SimConfig α) (t : α) (st st' : SimState α)
    (hok : schedule_warm_instance cfg t st = Except.ok st') :
    ∃ servers', servers'.length = st.servers.length ∧ st' = { st with
      total_req_count := st.total_req_count + 1
      total_warm_count := st.total_warm_count + 1
      servers := servers'
      warm_idx := st.warm_idx + 1 } := by
  unfold schedule_warm_instance at hok
  dsimp only at hok
  by_cases hemp : ((st.servers.filter (fun s => s.is_idle)).map
      (fun s => s.creation_time)).isEmpty
  · rw [if_pos hemp] at hok
    exact absurd hok (by simp)
  · rw [if_neg hemp] at hok
    cases hupd : updateIdleAtE
        (fun s => s.arrival_transition t (cfg.warm_samples st.warm_idx)) st.servers
        (argmaxIdx ((st.servers.filter (fun s => s.is_idle)).map
          (fun s => s.creation_time))) with
    | error e => rw [hupd] at hok; exact absurd hok (by simp)
    | ok servers' =>
        rw [hupd] at hok
        refine ⟨servers', updateIdleAtE_length _ _ _ _ hupd, ?_⟩
        have := hok
        simp at this
        exact this.symm

/-- Any error of `schedule_warm_instance` is the empty-argmax error, the
IndexError, or the busy-instance error. -/
theorem schedule_error_shape (cfg : SimConfig α) (t : α) (st : SimState α) (e : String)
    (h : schedule_warm_instance cfg t st = Except.error e) :
    e = "attempt to get argmax of an empty sequence"
    ∨ e = "list index out of range"
    ∨ e = "instance is already busy!" := by
  unfold schedule_warm_instance at h
  dsimp only at h
  by_cases hemp : ((st.servers.filter (fun s => s.is_idle)).map
      (fun s => s.creation_time)).isEmpty
  · rw [if_pos hemp] at h
    have : "attempt to get argmax of an empty sequence" = e := by simpa using h
    exact Or.inl this.symm
  · rw [if_neg hemp] at h
    cases hupd : updateIdleAtE
        (fun s => s.arrival_transition t (cfg.warm_samples st.warm_idx)) st.servers
        (argmaxIdx ((st.servers.filter (fun s => s.is_idle)).map
          (fun s => s.creation_time))) with
    | error e0 =>
        rw [hupd] at h
        have he : e0 = e := by simpa using h
        rw [← he]
        rcases updateIdleAtE_error_shape _ _ _ _ hupd with h1 | ⟨s, hs⟩
        · exact Or.inr (Or.inl h1)
        · exact Or.inr (Or.inr (arrival_transition_error_shape _ _ _ _ hs))
    | ok servers' => rw [hupd] at h; exact absurd h (by simp)

/-- A simulator with a nonempty server list reports `has_server`. -/
theorem has_server_true (st : SimState α) (h : st.servers ≠ []) :
    st.has_server = true := by
  simp [SimState.has_server, List.length_pos]
  exact h

/-- C2: when at least one instance is idle, `schedule_warm_instance`
dispatches the arrival to an idle instance whose `creation_time` is
maximal among all idle instances, replacing exactly that occurrence in
the server list with its warmed-up update. -/
theorem warm_selection_policy (cfg : SimConfig α) (t : α) (st : SimState α)
    (h : ∃ s ∈ st.servers, s.is_idle = true) :
    ∃ i s st', st.servers[i]? = some s ∧ s.is_idle = true
      ∧ (∀ s' ∈ st.servers, s'.is_idle = true → s'.creation_time ≤ s.creation_time)
      ∧ schedule_warm_instance cfg t st = Except.ok st'
      ∧ st'.servers = st.servers.set i
          { s with
            state := InstState.WARM
            is_busy := true
            next_departure := t + cfg.warm_samples st.warm_idx
            next_termination := t + cfg.warm_samples st.warm_idx + s.expiration_threshold } := by
  obtain ⟨s1, hs1mem, hs1idle⟩ := h
  have hFne : st.servers.filter (fun x => x.is_idle) ≠ [] :=
    List.ne_nil_of_mem (List.mem_filter.mpr ⟨hs1mem, hs1idle⟩)
  have hCne : (st.servers.filter (fun x => x.is_idle)).map (fun s => s.creation_time) ≠ [] := by
    simpa using hFne
  obtain ⟨v, hvget, hvmax⟩ := argmaxIdx_spec _ hCne
  rw [List.getElem?_map] at hvget
  cases hF0 : (st.servers.filter (fun x => x.is_idle))[argmaxIdx
      ((st.servers.filter (fun x => x.is_idle)).map (fun s => s.creation_time))]? with
  | none => rw [hF0] at hvget; exact absurd hvget (by simp)
  | some s0 =>
      rw [hF0] at hvget
      have hv : s0.creation_time = v := by simpa using hvget
      have hs0mem : s0 ∈ st.servers.filter (fun x => x.is_idle) := getElem?_mem hF0
      have hs0idle : s0.is_idle = true := (List.mem_filter.mp hs0mem).2
      have hf := arrival_transition_of_idle t (cfg.warm_samples st.warm_idx) s0 hs0idle
      obtain ⟨i, hgi, hupd⟩ := updateIdleAtE_filter_get
        (fun s => s.arrival_transition t (cfg.warm_samples st.warm_idx)) st.servers _ s0 _
        hF0 hf
      have hempf : ¬(((st.servers.filter (fun x => x.is_idle)).map
          (fun s => s.creation_time)).isEmpty = true) := by
        simpa [List.isEmpty_iff] using hCne
      refine ⟨i, s0,
        { st with
          total_req_count := st.total_req_count + 1
          total_warm_count := st.total_warm_count + 1
          servers := st.servers.set i
            { s0 with
              state := InstState.WARM
              is_busy := true
              next_departure := t + cfg.warm_samples st.warm_idx
              next_termination := t + cfg.warm_samples st.warm_idx + s0.expiration_threshold }
          warm_idx := st.warm_idx + 1 }, hgi, hs0idle, ?_, ?_, by simp⟩
      · intro s' hs'mem hs'idle
        have hmem : s'.creation_time ∈ (st.servers.filter (fun x => x.is_idle)).map
            (fun s => s.creation_time) :=
          List.mem_map_of_mem _ (List.mem_filter.mpr ⟨hs'mem, hs'idle⟩)
        rw [hv]
        exact hvmax _ hmem
      · unfold schedule_warm_instance
        dsimp only
        rw [if_neg hempf, hupd]

/-- Witness for C2: two idle instances created at 3 and 7; the selection
theorem applies, and direct evaluation shows the arrival at time 10 went
to the instance created at 7 (it is now WARM) while the one created at 3
stayed IDLE. -/
theorem warm_selection_policy_witness :
    (∃ i s st', stTwoIdle.servers[i]? = some s ∧ s.is_idle = true
      ∧ (∀ s' ∈ stTwoIdle.servers, s'.is_idle = true → s'.creation_time ≤ s.creation_time)
      ∧ schedule_warm_instance cfgW 10 stTwoIdle = Except.ok st'
      ∧ st'.servers = stTwoIdle.servers.set i
          { s with
            state := InstState.WARM
            is_busy := true
            next_departure := 10 + cfgW.warm_samples stTwoIdle.warm_idx
            next_termination := 10 + cfgW.warm_samples stTwoIdle.warm_idx +
              s.expiration_threshold })
    ∧ Except.map (fun st' => st'.servers.map (fun s => (s.creation_time, s.state)))
        (schedule_warm_instance cfgW 10 stTwoIdle)
      = Except.ok [((3 : ℤ), InstState.IDLE), (7, InstState.WARM)] :=
  ⟨warm_selection_policy cfgW 10 stTwoIdle ⟨fiIdle3, by decide, by decide⟩, by decide⟩

/-- C1: with at least one live instance, the dispatched event is the
arrival exactly when `next_arrival - t` is strictly smaller than the
minimum pending instance-transition time (observed through the request
total, which arrivals and only arrivals increment); on an exact tie the
instance transition is dispatched and the request total is unchanged. -/
theorem arrival_dispatch_rule (cfg : SimConfig α) (st st' : SimState α) (ts : List α)
    (hne : st.servers ≠ []) (hts : nextTransTimes st.t st.servers = Except.ok ts)
    (hok : step cfg st = Except.ok st') :
    (st'.total_req_count = st.total_req_count + 1 ↔ st.next_arrival - st.t < listMin ts)
    ∧ (st.next_arrival - st.t = listMin ts → st'.total_req_count = st.total_req_count) := by
  have hsv := has_server_true st hne
  have hcond : ¬(st.has_server = false) := by simp [hsv]
  unfold step at hok
  rw [if_neg hcond] at hok
  simp only [hts] at hok
  by_cases hlt : st.next_arrival - st.t < listMin ts
  · rw [if_pos hlt] at hok
    have htot : st'.total_req_count = st.total_req_count + 1 := by
      by_cases hidle : st.idle_count > 0
      · rw [if_pos hidle] at hok
        unfold warm_start_arrival at hok
        obtain ⟨sv, hlen, hsteq⟩ := schedule_ok_shape _ _ _ _ hok
        rw [hsteq]
      · rw [if_neg hidle] at hok
        have hst' : cold_start_arrival cfg st.next_arrival
            { st with
              t := st.next_arrival
              next_arrival := st.next_arrival + cfg.arrival_samples st.arrival_idx
              arrival_idx := st.arrival_idx + 1 } = st' := by
          simpa using hok
        rw [← hst']
        rfl
    refine ⟨iff_of_true htot hlt, ?_⟩
    intro htie
    rw [htie] at hlt
    exact absurd hlt (lt_irrefl _)
  · rw [if_neg hlt] at hok
    have htot : st'.total_req_count = st.total_req_count := by
      cases hg1 : st.servers[argminIdx ts]? with
      | none =>
          cases hg2 : ts[argminIdx ts]? with
          | none => simp only [hg1, hg2] at hok; exact absurd hok (by simp)
          | some dt => simp only [hg1, hg2] at hok; exact absurd hok (by simp)
      | some s =>
          cases hg2 : ts[argminIdx ts]? with
          | none => simp only [hg1, hg2] at hok; exact absurd hok (by simp)
          | some dt =>
              simp only [hg1, hg2] at hok
              cases hmt : s.make_transition with
              | error e => rw [hmt] at hok; exact absurd hok (by simp)
              | ok p =>
                  rw [hmt] at hok
                  obtain ⟨ns, s2⟩ := p
                  cases ns with
                  | COLD => exact absurd hok (by simp)
                  | WARM => exact absurd hok (by simp)
                  | IDLE =>
                      have := hok
                      simp at this
                      rw [← this]
                  | TERM =>
                      have := hok
                      simp at this
                      rw [← this]
    exact ⟨iff_of_false (by simp [htot]) hlt, fun _ => htot⟩

/-- Witness for C1 at a concrete state: one COLD server departing at 5,
arrival pending at 1, clock 0 — the arrival wins and the request total
goes from 1 to 2. -/
theorem arrival_dispatch_rule_witness :
    (stOneColdStepped.total_req_count = stOneCold.total_req_count + 1 ↔
      stOneCold.next_arrival - stOneCold.t < listMin [(5 : ℤ)])
    ∧ (stOneCold.next_arrival - stOneCold.t = listMin [(5 : ℤ)] →
      stOneColdStepped.total_req_count = stOneCold.total_req_count) :=
  arrival_dispatch_rule cfgW stOneCold stOneColdStepped [(5 : ℤ)]
    (by decide) (by decide) (by decide)

/-- C5: assuming all sampling sources return nonnegative durations, the
loop clock of `generate_trace` never decreases: it starts at or before the
first pending arrival, and each successful `step` moves the clock forward
(or keeps it) while keeping it at or before the pending arrival. -/
theorem clock_monotonic (cfg : SimConfig α) (st st' : SimState α)
    (hA : ∀ n, 0 ≤ cfg.arrival_samples n)
    (_hW : ∀ n, 0 ≤ cfg.warm_samples n)
    (_hC : ∀ n, 0 ≤ cfg.cold_samples n) :
    (init_state cfg).t ≤ (init_state cfg).next_arrival
    ∧ (st.t ≤ st.next_arrival → step cfg st = Except.ok st' →
        st.t ≤ st'.t ∧ st'.t ≤ st'.next_arrival) := by
  constructor
  · simpa [init_state] using hA 0
  · intro hinv hok
    unfold step at hok
    by_cases hsv : st.has_server = false
    · rw [if_pos hsv] at hok
      have hst' : cold_start_arrival cfg st.next_arrival
          { st with
            t := st.next_arrival
            next_arrival := st.next_arrival + cfg.arrival_samples st.arrival_idx
            arrival_idx := st.arrival_idx + 1 } = st' := by
        simpa using hok
      rw [← hst']
      exact ⟨hinv, le_add_of_nonneg_right (hA _)⟩
    · rw [if_neg hsv] at hok
      cases hts : nextTransTimes st.t st.servers with
      | error e => rw [hts] at hok; exact absurd hok (by simp)
      | ok ts =>
          simp only [hts] at hok
          have hsne : st.servers ≠ [] := by
            intro hnil
            exact hsv (by simp [SimState.has_server, hnil])
          have htsne : ts ≠ [] := by
            intro hnil
            have hlen := nextTransTimes_length st.t st.servers ts hts
            rw [hnil] at hlen
            exact hsne (List.eq_nil_of_length_eq_zero hlen.symm)
          by_cases hlt : st.next_arrival - st.t < listMin ts
          · rw [if_pos hlt] at hok
            by_cases hidle : st.idle_count > 0
            · rw [if_pos hidle] at hok
              unfold warm_start_arrival at hok
              obtain ⟨sv, hlen, hsteq⟩ := schedule_ok_shape _ _ _ _ hok
              rw [hsteq]
              exact ⟨hinv, le_add_of_nonneg_right (hA _)⟩
            · rw [if_neg hidle] at hok
              have hst' : cold_start_arrival cfg st.next_arrival
                  { st with
                    t := st.next_arrival
                    next_arrival := st.next_arrival + cfg.arrival_samples st.arrival_idx
                    arrival_idx := st.arrival_idx + 1 } = st' := by
                simpa using hok
              rw [← hst']
              exact ⟨hinv, le_add_of_nonneg_right (hA _)⟩
          · rw [if_neg hlt] at hok
            cases hg1 : st.servers[argminIdx ts]? with
            | none =>
                cases hg2 : ts[argminIdx ts]? with
                | none => simp only [hg1, hg2] at hok; exact absurd hok (by simp)
                | some dt => simp only [hg1, hg2] at hok; exact absurd hok (by simp)
            | some s =>
                cases hg2 : ts[argminIdx ts]? with
                | none => simp only [hg1, hg2] at hok; exact absurd hok (by simp)
                | some dt =>
                    simp only [hg1, hg2] at hok
                    have hdtmin : dt = listMin ts := by
                      have hm := argminIdx_get_listMin ts htsne
                      rw [hg2] at hm
                      exact Option.some.inj hm
                    have hdt0 : 0 ≤ dt :=
                      nextTransTimes_nonneg st.t st.servers ts hts dt (getElem?_mem hg2)
                    have hub : st.t + dt ≤ st.next_arrival := by
                      have hmle : listMin ts ≤ st.next_arrival - st.t := not_lt.mp hlt
                      have := le_sub_iff_add_le.mp hmle
                      rw [hdtmin, add_comm]
                      exact this
                    cases hmt : s.make_transition with
                    | error e => rw [hmt] at hok; exact absurd hok (by simp)
                    | ok p =>
                        rw [hmt] at hok
                        obtain ⟨ns, s2⟩ := p
                        cases ns with
                        | COLD => exact absurd hok (by simp)
                        | WARM => exact absurd hok (by simp)
                        | IDLE =>
                            have heq := hok
                            simp at heq
                            rw [← heq]
                            exact ⟨le_add_of_nonneg_right hdt0, hub⟩
                        | TERM =>
                            have heq := hok
                            simp at heq
                            rw [← heq]
                            exact ⟨le_add_of_nonneg_right hdt0, hub⟩

/-- Witness for C5: one step from the concrete state `stOneCold` under the
unit-sample configuration moves the clock from 0 to 1 and keeps it at or
before the next pending arrival. -/
theorem clock_monotonic_witness :
    (init_state cfgW).t ≤ (init_state cfgW).next_arrival
    ∧ (stOneCold.t ≤ stOneColdStepped.t
      ∧ stOneColdStepped.t ≤ stOneColdStepped.next_arrival) :=
  ⟨(clock_monotonic cfgW stOneCold stOneColdStepped
      (fun _ => by simp [cfgW]) (fun _ => by simp [cfgW]) (fun _ => by simp [cfgW])).1,
   (clock_monotonic cfgW stOneCold stOneColdStepped
      (fun _ => by simp [cfgW]) (fun _ => by simp [cfgW]) (fun _ => by simp [cfgW])).2
      (by decide) (by decide)⟩

/-- One successful `step` preserves the counter coherence
`running_count + idle_count = number of live servers`. -/
theorem step_preserves_live_count (cfg : SimConfig α) (st st' : SimState α)
    (hInv : st.running_count + st.idle_count = (st.servers.length : ℤ))
    (hok : step cfg st = Except.ok st') :
    st'.running_count + st'.idle_count = (st'.servers.length : ℤ) := by
  unfold step at hok
  by_cases hsv : st.has_server = false
  · rw [if_pos hsv] at hok
    have hst' : cold_start_arrival cfg st.next_arrival
        { st with
          t := st.next_arrival
          next_arrival := st.next_arrival + cfg.arrival_samples st.arrival_idx
          arrival_idx := st.arrival_idx + 1 } = st' := by
      simpa using hok
    rw [← hst']
    simp [cold_start_arrival]
    omega
  · rw [if_neg hsv] at hok
    cases hts : nextTransTimes st.t st.servers with
    | error e => rw [hts] at hok; exact absurd hok (by simp)
    | ok ts =>
        simp only [hts] at hok
        by_cases hlt : st.next_arrival - st.t < listMin ts
        · rw [if_pos hlt] at hok
          by_cases hidle : st.idle_count > 0
          · rw [if_pos hidle] at hok
            unfold warm_start_arrival at hok
            obtain ⟨sv, hlen, hsteq⟩ := schedule_ok_shape _ _ _ _ hok
            simp at hlen
            rw [hsteq]
            simp
            omega
          · rw [if_neg hidle] at hok
            have hst' : cold_start_arrival cfg st.next_arrival
                { st with
                  t := st.next_arrival
                  next_arrival := st.next_arrival + cfg.arrival_samples st.arrival_idx
                  arrival_idx := st.arrival_idx + 1 } = st' := by
              simpa using hok
            rw [← hst']
            simp [cold_start_arrival]
            omega
        · rw [if_neg hlt] at hok
          cases hg1 : st.servers[argminIdx ts]? with
          | none =>
              cases hg2 : ts[argminIdx ts]? with
              | none => simp only [hg1, hg2] at hok; exact absurd hok (by simp)
              | some dt => simp only [hg1, hg2] at hok; exact absurd hok (by simp)
          | some s =>
              cases hg2 : ts[argminIdx ts]? with
              | none => simp only [hg1, hg2] at hok; exact absurd hok (by simp)
              | some dt =>
                  simp only [hg1, hg2] at hok
                  obtain ⟨hidx, -⟩ := List.getElem?_eq_some.mp hg1
                  cases hmt : s.make_transition with
                  | error e => rw [hmt] at hok; exact absurd hok (by simp)
                  | ok p =>
                      rw [hmt] at hok
                      obtain ⟨ns, s2⟩ := p
                      cases ns with
                      | COLD => exact absurd hok (by simp)
                      | WARM => exact absurd hok (by simp)
                      | IDLE =>
                          have heq := hok
                          simp at heq
                          rw [← heq]
                          simp [List.length_set]
                          omega
                      | TERM =>
                          have heq := hok
                          simp at heq
                          rw [← heq]
                          simp [List.length_eraseIdx, List.length_set, hidx]
                          omega

/-- C4: starting from the state `reset_trace` and the loop prologue
produce, after any number of dispatched events the simulator satisfies
`running_count + idle_count = len(servers)`. -/
theorem live_count_invariant (cfg : SimConfig α) (n : ℕ) (st' : SimState α)
    (h : run cfg n (init_state cfg) = Except.ok st') :
    st'.running_count + st'.idle_count = (st'.servers.length : ℤ) := by
  have haux : ∀ (m : ℕ) (s s' : SimState α),
      s.running_count + s.idle_count = (s.servers.length : ℤ) →
      run cfg m s = Except.ok s' →
      s'.running_count + s'.idle_count = (s'.servers.length : ℤ) := by
    intro m
    induction m with
    | zero =>
        intro s s' hi hr
        simp [run] at hr
        rw [← hr]
        exact hi
    | succ m ih =>
        intro s s' hi hr
        unfold run at hr
        by_cases hc : s.t < cfg.max_time
        · rw [if_pos hc] at hr
          cases hs : step cfg s with
          | error e => simp only [hs] at hr; exact absurd hr (by simp)
          | ok s1 =>
              simp only [hs] at hr
              exact ih s1 s' (step_preserves_live_count cfg s s1 hi hs) hr
        · rw [if_neg hc] at hr
          have hss : s = s' := by simpa using hr
          rw [← hss]
          exact hi
  exact haux n (init_state cfg) st' (by simp [init_state]) h

/-- Witness for C4: after three loop iterations under the concrete
configuration `cfgW` the counters match the live-server count. -/
theorem live_count_invariant_witness :
    stRun3.running_count + stRun3.idle_count = (stRun3.servers.length : ℤ) :=
  live_count_invariant cfgW 3 stRun3 (by decide)

/-- The only errors `get_next_transition_time` can raise are the two
time-already-past ones. -/
theorem get_next_transition_time_error_shape (fi : FunctionInstance α) (t : α) (e : String)
    (h : fi.get_next_transition_time t = Except.error e) :
    e = "current time is after departure!" ∨ e = "current time is after termination!" := by
  unfold FunctionInstance.get_next_transition_time at h
  by_cases hs : fi.state = InstState.IDLE
  · rw [if_pos hs] at h
    unfold FunctionInstance.get_next_termination at h
    by_cases ht : t > fi.next_termination
    · rw [if_pos ht] at h
      have he : "current time is after termination!" = e := by simpa using h
      exact Or.inr he.symm
    · rw [if_neg ht] at h
      exact absurd h (by simp)
  · rw [if_neg hs] at h
    unfold FunctionInstance.get_next_departure at h
    by_cases ht : t > fi.next_departure
    · rw [if_pos ht] at h
      have he : "current time is after departure!" = e := by simpa using h
      exact Or.inl he.symm
    · rw [if_neg ht] at h
      exact absurd h (by simp)

/-- Errors of the transition-time comprehension come from its elements. -/
theorem nextTransTimes_error_shape (t : α) :
    ∀ (ss : List (FunctionInstance α)) (e : String),
      nextTransTimes t ss = Except.error e →
      e = "current time is after departure!" ∨ e = "current time is after termination!" := by
  intro ss
  induction ss with
  | nil => intro e h; exact absurd h (by simp [nextTransTimes])
  | cons s ss ih =>
      intro e h
      unfold nextTransTimes at h
      cases h1 : s.get_next_transition_time t with
      | error e0 =>
          rw [h1] at h
          have he : e0 = e := by simpa using h
          rw [← he]
          exact get_next_transition_time_error_shape s t e0 h1
      | ok v =>
          rw [h1] at h
          cases h2 : nextTransTimes t ss with
          | error e0 =>
              rw [h2] at h
              have he : e0 = e := by simpa using h
              rw [← he]
              exact ih e0 h2
          | ok vs => rw [h2] at h; exact absurd h (by simp)

omit [LinearOrderedAddCommGroup α] in
/-- The only error `make_transition` can raise is the terminated-instance
one. -/
theorem make_transition_error_shape (fi : FunctionInstance α) (e : String)
    (h : fi.make_transition = Except.error e) :
    e = "Cannot make transition on terminated instance!" := by
  cases hst : fi.state <;> simp [FunctionInstance.make_transition, hst] at h
  exact h.symm

/-- No error produced by `step` carries the unknown-transition message. -/
theorem step_error_ne_unknown (cfg : SimConfig α) (st : SimState α) (e : String)
    (h : step cfg st = Except.error e) :
    e ≠ "Unknown transition in states" := by
  unfold step at h
  by_cases hsv : st.has_server = false
  · rw [if_pos hsv] at h
    exact absurd h (by simp)
  · rw [if_neg hsv] at h
    cases hts : nextTransTimes st.t st.servers with
    | error e0 =>
        simp only [hts] at h
        have he : e0 = e := by simpa using h
        rw [← he]
        rcases nextTransTimes_error_shape st.t st.servers e0 hts with h1 | h1 <;>
          (rw [h1]; decide)
    | ok ts =>
        simp only [hts] at h
        by_cases hlt : st.next_arrival - st.t < listMin ts
        · rw [if_pos hlt] at h
          by_cases hidle : st.idle_count > 0
          · rw [if_pos hidle] at h
            unfold warm_start_arrival at h
            rcases schedule_error_shape _ _ _ _ h with h1 | h1 | h1 <;>
              (rw [h1]; decide)
          · rw [if_neg hidle] at h
            exact absurd h (by simp)
        · rw [if_neg hlt] at h
          cases hg1 : st.servers[argminIdx ts]? with
          | none =>
              cases hg2 : ts[argminIdx ts]? with
              | none =>
                  simp only [hg1, hg2] at h
                  have he : "list index out of range" = e := by simpa using h
                  rw [← he]; decide
              | some dt =>
                  simp only [hg1, hg2] at h
                  have he : "list index out of range" = e := by simpa using h
                  rw [← he]; decide
          | some s =>
              cases hg2 : ts[argminIdx ts]? with
              | none =>
                  simp only [hg1, hg2] at h
                  have he : "list index out of range" = e := by simpa using h
                  rw [← he]; decide
              | some dt =>
                  simp only [hg1, hg2] at h
                  cases hmt : s.make_transition with
                  | error e0 =>
                      rw [hmt] at h
                      have he : e0 = e := by simpa using h
                      rw [← he, make_transition_error_shape s e0 hmt]
                      decide
                  | ok p =>
                      rw [hmt] at h
                      obtain ⟨ns, s2⟩ := p
                      cases ns with
                      | COLD =>
                          rcases make_transition_ok_state s (InstState.COLD, s2) hmt with
                            h1 | h1 <;> simp at h1
                      | WARM =>
                          rcases make_transition_ok_state s (InstState.WARM, s2) hmt with
                            h1 | h1 <;> simp at h1
                      | IDLE => exact absurd h (by simp)
                      | TERM => exact absurd h (by simp)

/-- C10: a successful `make_transition` only ever returns IDLE or TERM
(observed on its `Except` result), so the event loop's final else branch —
the unknown-transition error — can never be the outcome of a `step`. -/
theorem unknown_transition_unreachable :
    (∀ fi : FunctionInstance α,
      ((fi.make_transition).toOption.all
        (fun p => p.1 == InstState.IDLE || p.1 == InstState.TERM)) = true)
    ∧ ∀ (cfg : SimConfig α) (st : SimState α), stepUnknownFlag cfg st = false := by
  constructor
  · intro fi
    cases hst : fi.state <;>
      simp [FunctionInstance.make_transition, hst, Except.toOption, Option.all]
  · intro cfg st
    unfold stepUnknownFlag
    cases hs : step cfg st with
    | error e =>
        have hne := step_error_ne_unknown cfg st e hs
        simpa using hne
    | ok s1 => rfl
